import Mathlib

/-!
Verification of the native-sass style-preprocessing utility
(`src/utils.ts`): shorthand expanders for inset, spacing (margin and
padding) and gap, the dimension-value classifier, the key scoper for
shared selectors, and the shared-style merger.

JavaScript runtime values are embedded as the inductive type `JSValue`;
JavaScript objects (whose keys are unique and insertion-ordered) are
embedded as association lists. A thrown `Error` is embedded as the
`StyleError` inductive, one constructor per throw site, carrying exactly
the data the source interpolates into the message.
-/

set_option linter.unusedVariables false

namespace NativeSass

/-- A JavaScript runtime value, as far as the utility inspects one:
numbers, strings, booleans, null, undefined, functions (opaque),
arrays, and objects given as insertion-ordered key/value lists. -/
inductive JSValue where
  | num (n : Int)
  | str (s : String)
  | bool (b : Bool)
  | null
  | undefined
  | fn
  | arr (elems : List JSValue)
  | obj (props : List (String × JSValue))

/-- An object or map payload: property name to value, insertion ordered,
keys unique (as in a JavaScript object). -/
abbrev PropMap := List (String × JSValue)

/-- The flat style mapping and the shared style map: selector name to
property map. -/
abbrev StyleMap := List (String × PropMap)

/-- JavaScript property read `m[k]` on an object embedded as an
association list: the first entry with the key, if any. -/
def alGet {α : Type} (m : List (String × α)) (k : String) : Option α :=
  match m with
  | [] => none
  | p :: rest => if p.1 == k then some p.2 else alGet rest k

/-- JavaScript property write `m[k] = v`: overwrite the entry in place
when the key exists, append otherwise. -/
def alSet {α : Type} (m : List (String × α)) (k : String) (v : α) : List (String × α) :=
  match m with
  | [] => [(k, v)]
  | p :: rest => if p.1 == k then (k, v) :: rest else p :: alSet rest k v

/-- `Object.assign(target, src)`: write every property of `src` into
`target`, left to right. -/
def objAssign {α : Type} (target src : List (String × α)) : List (String × α) :=
  match src with
  | [] => target
  | p :: rest => objAssign (alSet target p.1 p.2) rest

/-- Two-level lookup `m[sel][prop]` in a style map. -/
def lookup2 (m : StyleMap) (sel prop : String) : Option JSValue :=
  match alGet m sel with
  | none => none
  | some bucket => alGet bucket prop

/-- JavaScript truthiness of an embedded value. -/
def truthy : JSValue → Bool
  | .num n => !(n == 0)
  | .str s => !(s == "")
  | .bool b => b
  | .null => false
  | .undefined => false
  | .fn => true
  | .arr _ => true
  | .obj _ => true

/-- Property access `v.addListener` and the like: defined lookup on
objects, `undefined` on every other value the code probes. -/
def getProp (v : JSValue) (k : String) : JSValue :=
  match v with
  | .obj props => (alGet props k).getD .undefined
  | _ => .undefined

/-- `typeof v === 'function'`. -/
def isFunction : JSValue → Bool
  | .fn => true
  | _ => false

/-- `typeof v === 'number'`. -/
def isNumberV : JSValue → Bool
  | .num _ => true
  | _ => false

/-- `Array.isArray(v)`. -/
def isArrayV : JSValue → Bool
  | .arr _ => true
  | _ => false

/-- `typeof v`, as the string the source interpolates into error
messages. -/
def typeofStr : JSValue → String
  | .num _ => "number"
  | .str _ => "string"
  | .bool _ => "boolean"
  | .null => "object"
  | .undefined => "undefined"
  | .fn => "function"
  | .arr _ => "object"
  | .obj _ => "object"

/-- The optional-trailing-percent tail `(%)?$` of the source regular
expression: the remaining input is empty or a single percent sign. -/
def matchPercentEnd : List Char → Bool
  | [] => true
  | c :: rest => c == '%' && rest.isEmpty

/-- The part of the source regular expression after the leading digits:
nothing, a percent sign, or a decimal point followed by one or more
digits and the optional percent sign. -/
def matchDimTail : List Char → Bool
  | [] => true
  | c :: rest2 =>
    if c == '%' && rest2.isEmpty then true
    else if c == '.' then
      if (rest2.takeWhile Char.isDigit).isEmpty then false
      else matchPercentEnd (rest2.dropWhile Char.isDigit)
    else false

/-- Deterministic matcher for the source regular expression
`^(\d+(\.\d+)?)(%)?$`: one or more digits, an optional decimal
fraction, an optional trailing percent sign. -/
def matchDimCore (cs : List Char) : Bool :=
  if (cs.takeWhile Char.isDigit).isEmpty then false
  else matchDimTail (cs.dropWhile Char.isDigit)

/-- `/^(\d+(\.\d+)?)(%)?$/.test value` from `isDimensionValue`. -/
def matchesDimPattern (s : String) : Bool := matchDimCore s.data

/-- The specification's wording of the percentage-string pattern, as a
predicate of its own: the string decomposes into one or more digits, an
optional decimal fraction (a point followed by one or more digits), and
an optional trailing percent sign. Proved equivalent to the source
matcher `matchesDimPattern`. -/
def specDimPattern (s : String) : Prop :=
  ∃ ds fr pc : List Char,
    s.data = ds ++ fr ++ pc ∧ ds ≠ [] ∧ (∀ c ∈ ds, c.isDigit = true) ∧
    (fr = [] ∨ ∃ fd, fr = '.' :: fd ∧ fd ≠ [] ∧ (∀ c ∈ fd, c.isDigit = true)) ∧
    (pc = [] ∨ pc = ['%'])

/-- The type guard `isDimensionValue` from `src/utils.ts`: number, or
the exact string auto, or a percentage-pattern string, or null, or a
truthy value whose `addListener` property is a function. -/
def isDimensionValue (value : JSValue) : Bool :=
  (match value with | .num _ => true | _ => false)
  || (match value with | .str s => s == "auto" | _ => false)
  || (match value with | .str s => matchesDimPattern s | _ => false)
  || (match value with | .null => true | _ => false)
  || (truthy value && isFunction (getProp value "addListener"))

/-- A thrown `Error`, one constructor per throw site of `src/utils.ts`,
carrying the data interpolated into the message. -/
inductive StyleError where
  /-- The message `Invalid value for inset:` followed by the JSON of the
  received array (the default arm of `handleShorthandInset`). -/
  | invalidInsetValue (value : List JSValue)
  /-- The messages `Invalid value for KEY: Expected ..., got TYPEOF.`
  closing each handler. -/
  | invalidShorthandValue (key : String) (typeofValue : String)
  /-- The messages `Invalid KEY array length: Expected EXPECTED, got
  GOT.` from the spacing and gap handlers. -/
  | invalidLength (key : String) (expected : List Nat) (got : Nat)
  /-- Calling `shorthandHandlers[key]` for a key outside the table
  (a TypeError on calling undefined; unreachable behind the
  `specialShorthandKeys.includes` guard). -/
  | handlerUndefined (key : String)

/-- `handleShorthandInset` from `src/utils.ts`. -/
def handleShorthandInset (key : String) (value : JSValue) : Except StyleError PropMap :=
  if isDimensionValue value then
    .ok [("top", value), ("right", value), ("bottom", value), ("left", value)]
  else
    match value with
    | .arr xs =>
      if xs.all isDimensionValue then
        match xs with
        | [top] => .ok [("top", top), ("right", top), ("bottom", top), ("left", top)]
        | [top, right] => .ok [("top", top), ("right", right), ("bottom", top), ("left", right)]
        | [top, right, bottom] =>
          .ok [("top", top), ("right", right), ("bottom", bottom), ("left", right)]
        | [top, right, bottom, left] =>
          .ok [("top", top), ("right", right), ("bottom", bottom), ("left", left)]
        | _ => .error (.invalidInsetValue xs)
      else .error (.invalidShorthandValue key (typeofStr (.arr xs)))
    | v => .error (.invalidShorthandValue key (typeofStr v))

/-- `handleShorthandSpacing` from `src/utils.ts`. -/
def handleShorthandSpacing (key : String) (value : JSValue) : Except StyleError PropMap :=
  if isDimensionValue value then
    .ok [(key ++ "Vertical", value), (key ++ "Horizontal", value)]
  else
    match value with
    | .arr xs =>
      if xs.all isDimensionValue then
        match xs with
        | [top] => .ok [(key, top)]
        | [top, right] => .ok [(key ++ "Vertical", top), (key ++ "Horizontal", right)]
        | [top, right, bottom] =>
          .ok [(key ++ "Top", top), (key ++ "Horizontal", right), (key ++ "Bottom", bottom)]
        | [top, right, bottom, left] =>
          .ok [(key ++ "Top", top), (key ++ "Right", right),
               (key ++ "Bottom", bottom), (key ++ "Left", left)]
        | _ => .error (.invalidLength key [1, 2, 3, 4] xs.length)
      else .error (.invalidShorthandValue key (typeofStr (.arr xs)))
    | v => .error (.invalidShorthandValue key (typeofStr v))

/-- `handleShorthandGap` from `src/utils.ts`. -/
def handleShorthandGap (key : String) (value : JSValue) : Except StyleError PropMap :=
  if isNumberV value then
    .ok [("gap", value)]
  else
    match value with
    | .arr xs =>
      if xs.all isNumberV then
        match xs with
        | [row] => .ok [("gap", row)]
        | [row, column] => .ok [("rowGap", row), ("columnGap", column)]
        | _ => .error (.invalidLength "gap" [1, 2] xs.length)
      else .error (.invalidShorthandValue key (typeofStr (.arr xs)))
    | v => .error (.invalidShorthandValue key (typeofStr v))

/-- `ignoredKeys` from `src/utils.ts`: compound styles copied verbatim. -/
def ignoredKeys : List String := ["shadowOffset"]

/-- `specialShorthandKeys` from `src/utils.ts`. -/
def specialShorthandKeys : List String := ["inset", "margin", "padding", "gap"]

/-- The `shorthandHandlers` dispatch table from `src/utils.ts`, as a
function; a key outside the table models calling `undefined`. -/
def shorthandHandlers (key : String) (value : JSValue) : Except StyleError PropMap :=
  match key with
  | "inset" => handleShorthandInset key value
  | "margin" => handleShorthandSpacing key value
  | "padding" => handleShorthandSpacing key value
  | "gap" => handleShorthandGap key value
  | _ => .error (.handlerUndefined key)

/-- `capitalize` from `src/utils.ts`: uppercase the first character,
keep the rest. -/
def capitalize (s : String) : String :=
  match s.data with
  | [] => ""
  | c :: rest => String.mk (c.toUpper :: rest)

/-- The scoped-key computation inside `handleSharedStyles`:
`parentKey ? parentKey + capitalize(selector) : selector`. -/
def scopedKeyOf (parentKey selector : String) : String :=
  if parentKey == "" then selector else parentKey ++ capitalize selector

/-- JavaScript `key.split(',')` at the character level: split into the
(possibly empty) groups between commas. -/
def splitOnComma (cs : List Char) : List (List Char) :=
  match cs with
  | [] => [[]]
  | c :: rest =>
    let groups := splitOnComma rest
    if c == ',' then [] :: groups
    else
      match groups with
      | [] => [[c]]
      | g :: gs => (c :: g) :: gs

/-- JavaScript `s.trim()` at the character level: drop whitespace from
both ends. -/
def trimChars (cs : List Char) : List Char :=
  ((cs.dropWhile Char.isWhitespace).reverse.dropWhile Char.isWhitespace).reverse

/-- `key.split(',').map((s) => s.trim())` from `handleSharedStyles`. -/
def selectorSegments (key : String) : List String :=
  (splitOnComma key.data).map (fun cs => String.mk (trimChars cs))

/-- The `for (const prop in value)` loop body of `handleSharedStyles`:
shorthand properties are expanded and `Object.assign`-ed into the
bucket, other properties are written directly. -/
def processProps (value : PropMap) (bucket : PropMap) : Except StyleError PropMap :=
  match value with
  | [] => .ok bucket
  | (prop, v) :: rest =>
    if specialShorthandKeys.contains prop then
      match shorthandHandlers prop v with
      | .error e => .error e
      | .ok expanded => processProps rest (objAssign bucket expanded)
    else processProps rest (alSet bucket prop v)

/-- The bucket-creation step `if (!map[scopedKey]) map[scopedKey] = {}`. -/
def ensureBucket (m : StyleMap) (k : String) : StyleMap :=
  if (alGet m k).isSome then m else alSet m k []

/-- One iteration of the `selectors.forEach` loop of
`handleSharedStyles`: ensure the scoped bucket exists, then process
every declared property into it. -/
def applySelector (parentKey : String) (value : PropMap) (m : StyleMap)
    (selector : String) : Except StyleError StyleMap :=
  match processProps value
      ((alGet (ensureBucket m (scopedKeyOf parentKey selector))
        (scopedKeyOf parentKey selector)).getD []) with
  | .error e => .error e
  | .ok bucket =>
    .ok (alSet (ensureBucket m (scopedKeyOf parentKey selector))
      (scopedKeyOf parentKey selector) bucket)

/-- The `selectors.forEach` loop of `handleSharedStyles`. -/
def sharedStylesLoop (parentKey : String) (value : PropMap)
    (sels : List String) (m : StyleMap) : Except StyleError StyleMap :=
  match sels with
  | [] => .ok m
  | sel :: rest =>
    match applySelector parentKey value m sel with
    | .error e => .error e
    | .ok m2 => sharedStylesLoop parentKey value rest m2

/-- `handleSharedStyles` from `src/utils.ts`: split the key on commas,
trim each segment, and process the declared properties into each
segment's scoped bucket. -/
def handleSharedStyles (key parentKey : String) (value : PropMap)
    (map : StyleMap) : Except StyleError StyleMap :=
  sharedStylesLoop parentKey value (selectorSegments key) map

/-- `assignFlatStyle` from `src/utils.ts`: create the parent bucket if
absent, then write the property. -/
def assignFlatStyle (nativeStyles : StyleMap) (parentKey key : String)
    (value : JSValue) : StyleMap :=
  let ns := if (alGet nativeStyles parentKey).isSome then nativeStyles
            else alSet nativeStyles parentKey []
  alSet ns parentKey (alSet ((alGet ns parentKey).getD []) key value)

/-- `assignIgnoredKeyStyle` from `src/utils.ts`: create the parent
bucket if absent, then write the property (verbatim copy for compound
styles). -/
def assignIgnoredKeyStyle (nativeStyles : StyleMap) (parentKey key : String)
    (value : JSValue) : StyleMap :=
  let ns := if (alGet nativeStyles parentKey).isSome then nativeStyles
            else alSet nativeStyles parentKey []
  alSet ns parentKey (alSet ((alGet ns parentKey).getD []) key value)

/-- `applySharedStyles` from `src/utils.ts`: for each selector in the
shared style map, create its bucket in `nativeStyles` if absent and
`Object.assign` the accumulated properties into it. -/
def applySharedStyles (nativeStyles : StyleMap) (sharedStylesMap : StyleMap) : StyleMap :=
  match sharedStylesMap with
  | [] => nativeStyles
  | (selector, props) :: rest =>
    let ns1 := if (alGet nativeStyles selector).isSome then nativeStyles
               else alSet nativeStyles selector []
    let ns2 := alSet ns1 selector (objAssign ((alGet ns1 selector).getD []) props)
    applySharedStyles ns2 rest

/-- Discriminator for the error family that carries an expected length
set and the actual length (the `Invalid ... array length` messages). -/
def StyleError.isLengthError : StyleError → Bool
  | .invalidLength _ _ _ => true
  | _ => false

/-! ### Association-list lemmas -/

theorem alGet_alSet_self {α : Type} (m : List (String × α)) (k : String) (v : α) :
    alGet (alSet m k v) k = some v := by
  induction m with
  | nil => simp [alGet, alSet]
  | cons p rest ih =>
    by_cases h : p.1 = k
    · simp [alGet, alSet, h]
    · simp [alGet, alSet, h, ih]

theorem alGet_alSet_ne {α : Type} (m : List (String × α)) (k k' : String) (v : α)
    (h : k' ≠ k) : alGet (alSet m k v) k' = alGet m k' := by
  have h2 : ¬ k = k' := fun hk => h hk.symm
  induction m with
  | nil => simp [alGet, alSet, h2]
  | cons p rest ih =>
    by_cases hp : p.1 = k
    · simp [alGet, alSet, hp, h2]
    · simp [alGet, alSet, hp, ih]

theorem alGet_eq_none_iff {α : Type} (m : List (String × α)) (k : String) :
    alGet m k = none ↔ k ∉ m.map Prod.fst := by
  induction m with
  | nil => simp [alGet]
  | cons p rest ih =>
    by_cases h : p.1 = k
    · simp [alGet, h]
    · simp [alGet, h, ih, Ne.symm h]

theorem alGet_mem_snd {α : Type} (m : List (String × α)) (k : String) (b : α)
    (h : alGet m k = some b) : b ∈ m.map Prod.snd := by
  induction m with
  | nil => simp [alGet] at h
  | cons p rest ih =>
    by_cases hp : p.1 = k
    · simp [alGet, hp] at h
      simp [h]
    · simp only [alGet, beq_iff_eq, hp, if_false] at h
      simp [ih h]

theorem objAssign_alGet_of_none {α : Type} (src target : List (String × α)) (k : String)
    (h : alGet src k = none) : alGet (objAssign target src) k = alGet target k := by
  induction src generalizing target with
  | nil => simp [objAssign]
  | cons p rest ih =>
    by_cases hp : p.1 = k
    · simp [alGet, hp] at h
    · simp only [alGet, beq_iff_eq, hp, if_false] at h
      simp only [objAssign]
      rw [ih _ h, alGet_alSet_ne _ _ _ _ (fun hk => hp hk.symm)]

theorem objAssign_alGet_of_some {α : Type} (src target : List (String × α)) (k : String)
    (v : α) (hnd : (src.map Prod.fst).Nodup) (h : alGet src k = some v) :
    alGet (objAssign target src) k = some v := by
  induction src generalizing target with
  | nil => simp [alGet] at h
  | cons p rest ih =>
    simp only [List.map_cons, List.nodup_cons] at hnd
    by_cases hp : p.1 = k
    · simp only [alGet, beq_iff_eq, hp, if_true] at h
      have hv : p.2 = v := Option.some.inj h
      have hrest : alGet rest k = none := by
        rw [alGet_eq_none_iff]
        rw [hp] at hnd
        exact hnd.1
      simp only [objAssign]
      rw [objAssign_alGet_of_none _ _ _ hrest, hp, alGet_alSet_self, hv]
    · simp only [alGet, beq_iff_eq, hp, if_false] at h
      simp only [objAssign]
      exact ih (alSet target p.1 p.2) hnd.2 h

/-- Arrays are never classified as dimension values. -/
theorem isDimensionValue_arr (xs : List JSValue) :
    isDimensionValue (.arr xs) = false := rfl

theorem isNumberV_num (n : Int) : isNumberV (.num n) = true := rfl

theorem isNumberV_arr (xs : List JSValue) : isNumberV (.arr xs) = false := rfl

/-! ### Claims about the shorthand expanders -/

/-- Claim C1: for every scalar dimension value `v`,
`handleShorthandInset` returns top, right, bottom and left all set to
`v`; and a sequence of dimension values of length 1 to 4 is expanded by
CSS-style corner inheritance (length 1: all four sides; length 2: top
and bottom from the first value, right and left from the second;
length 3: top, then right and left from the second, bottom from the
third; length 4: top, right, bottom, left in order). -/
theorem inset_expansion (key : String) (v a b c d : JSValue)
    (hv : isDimensionValue v = true) (ha : isDimensionValue a = true)
    (hb : isDimensionValue b = true) (hc : isDimensionValue c = true)
    (hd : isDimensionValue d = true) :
    handleShorthandInset key v =
      .ok [("top", v), ("right", v), ("bottom", v), ("left", v)] ∧
    handleShorthandInset key (.arr [a]) =
      .ok [("top", a), ("right", a), ("bottom", a), ("left", a)] ∧
    handleShorthandInset key (.arr [a, b]) =
      .ok [("top", a), ("right", b), ("bottom", a), ("left", b)] ∧
    handleShorthandInset key (.arr [a, b, c]) =
      .ok [("top", a), ("right", b), ("bottom", c), ("left", b)] ∧
    handleShorthandInset key (.arr [a, b, c, d]) =
      .ok [("top", a), ("right", b), ("bottom", c), ("left", d)] := by
  refine ⟨?_, ?_, ?_, ?_, ?_⟩ <;>
    simp [handleShorthandInset, isDimensionValue_arr, hv, ha, hb, hc, hd]

/-- Claim C1 witness: the expansions at the scalar `auto` and at
concrete numeric arrays of each supported length. -/
theorem inset_expansion_witness :
    handleShorthandInset "inset" (.str "auto") =
      .ok [("top", .str "auto"), ("right", .str "auto"),
           ("bottom", .str "auto"), ("left", .str "auto")] ∧
    handleShorthandInset "inset" (.arr [.num 1]) =
      .ok [("top", .num 1), ("right", .num 1), ("bottom", .num 1), ("left", .num 1)] ∧
    handleShorthandInset "inset" (.arr [.num 1, .num 2]) =
      .ok [("top", .num 1), ("right", .num 2), ("bottom", .num 1), ("left", .num 2)] ∧
    handleShorthandInset "inset" (.arr [.num 1, .num 2, .num 3]) =
      .ok [("top", .num 1), ("right", .num 2), ("bottom", .num 3), ("left", .num 2)] ∧
    handleShorthandInset "inset" (.arr [.num 1, .num 2, .num 3, .num 4]) =
      .ok [("top", .num 1), ("right", .num 2), ("bottom", .num 3), ("left", .num 4)] :=
  inset_expansion "inset" (.str "auto") (.num 1) (.num 2) (.num 3) (.num 4)
    (by decide) (by decide) (by decide) (by decide) (by decide)

/-- Claim C2: `handleShorthandSpacing` maps a scalar dimension value to
the Vertical and Horizontal pair, a length-1 sequence to the bare
property (asymmetric with inset by design), a length-2 sequence to the
Vertical and Horizontal pair, a length-3 sequence to Top, Horizontal and
Bottom, and a length-4 sequence to Top, Right, Bottom, Left. -/
theorem spacing_expansion (key : String) (v a b c d : JSValue)
    (hv : isDimensionValue v = true) (ha : isDimensionValue a = true)
    (hb : isDimensionValue b = true) (hc : isDimensionValue c = true)
    (hd : isDimensionValue d = true) :
    handleShorthandSpacing key v =
      .ok [(key ++ "Vertical", v), (key ++ "Horizontal", v)] ∧
    handleShorthandSpacing key (.arr [a]) = .ok [(key, a)] ∧
    handleShorthandSpacing key (.arr [a, b]) =
      .ok [(key ++ "Vertical", a), (key ++ "Horizontal", b)] ∧
    handleShorthandSpacing key (.arr [a, b, c]) =
      .ok [(key ++ "Top", a), (key ++ "Horizontal", b), (key ++ "Bottom", c)] ∧
    handleShorthandSpacing key (.arr [a, b, c, d]) =
      .ok [(key ++ "Top", a), (key ++ "Right", b),
           (key ++ "Bottom", c), (key ++ "Left", d)] := by
  refine ⟨?_, ?_, ?_, ?_, ?_⟩ <;>
    simp [handleShorthandSpacing, isDimensionValue_arr, hv, ha, hb, hc, hd]

/-- Claim C2 witness: the margin expansions at the scalar 7 and at
concrete numeric arrays of each supported length. -/
theorem spacing_expansion_witness :
    handleShorthandSpacing "margin" (.num 7) =
      .ok [("marginVertical", .num 7), ("marginHorizontal", .num 7)] ∧
    handleShorthandSpacing "margin" (.arr [.num 1]) = .ok [("margin", .num 1)] ∧
    handleShorthandSpacing "margin" (.arr [.num 1, .num 2]) =
      .ok [("marginVertical", .num 1), ("marginHorizontal", .num 2)] ∧
    handleShorthandSpacing "margin" (.arr [.num 1, .num 2, .num 3]) =
      .ok [("marginTop", .num 1), ("marginHorizontal", .num 2), ("marginBottom", .num 3)] ∧
    handleShorthandSpacing "margin" (.arr [.num 1, .num 2, .num 3, .num 4]) =
      .ok [("marginTop", .num 1), ("marginRight", .num 2),
           ("marginBottom", .num 3), ("marginLeft", .num 4)] :=
  spacing_expansion "margin" (.num 7) (.num 1) (.num 2) (.num 3) (.num 4)
    (by decide) (by decide) (by decide) (by decide) (by decide)

/-- Claim C3: `handleShorthandGap` maps a plain number to a bare gap
property, a numeric sequence of length 1 to the bare gap, of length 2
to rowGap and columnGap, and fails on any other numeric sequence length
with the length error naming expected lengths 1 and 2; every
non-numeric, non-array value fails with the invalid-value error. -/
theorem gap_expansion (key : String) (n : Int) (r c : JSValue) (xs ys : List JSValue)
    (v : JSValue) (hr : isNumberV r = true) (hc : isNumberV c = true)
    (hxs : xs.all isNumberV = true) (hlen : xs.length ≠ 1 ∧ xs.length ≠ 2)
    (hys : ys.all isNumberV = false)
    (hv1 : isNumberV v = false) (hv2 : isArrayV v = false) :
    handleShorthandGap key (.num n) = .ok [("gap", .num n)] ∧
    handleShorthandGap key (.arr [r]) = .ok [("gap", r)] ∧
    handleShorthandGap key (.arr [r, c]) = .ok [("rowGap", r), ("columnGap", c)] ∧
    handleShorthandGap key (.arr xs) = .error (.invalidLength "gap" [1, 2] xs.length) ∧
    handleShorthandGap key (.arr ys) = .error (.invalidShorthandValue key "object") ∧
    handleShorthandGap key v = .error (.invalidShorthandValue key (typeofStr v)) := by
  refine ⟨?_, ?_, ?_, ?_, ?_, ?_⟩
  · simp [handleShorthandGap, isNumberV_num]
  · simp [handleShorthandGap, isNumberV_arr, hr]
  · simp [handleShorthandGap, isNumberV_arr, hr, hc]
  · rcases xs with _ | ⟨x, _ | ⟨y, t⟩⟩
    · simp [handleShorthandGap, isNumberV_arr]
    · simp at hlen
    · rcases t with _ | ⟨z, t⟩
      · simp at hlen
      · simp only [List.all_cons, Bool.and_eq_true] at hxs
        simp [handleShorthandGap, isNumberV_arr, hxs.1, hxs.2.1, hxs.2.2]
  · simp [handleShorthandGap, isNumberV_arr, hys, typeofStr]
  · cases v <;> simp_all [handleShorthandGap, isNumberV, isArrayV, typeofStr]

/-- Claim C3 witness: gap at the number 3, at numeric arrays of lengths
1, 2 and 3, at an array holding the non-numeric value auto, and at the
non-numeric string 5. -/
theorem gap_expansion_witness :
    handleShorthandGap "gap" (.num 3) = .ok [("gap", .num 3)] ∧
    handleShorthandGap "gap" (.arr [.num 4]) = .ok [("gap", .num 4)] ∧
    handleShorthandGap "gap" (.arr [.num 4, .num 5]) =
      .ok [("rowGap", .num 4), ("columnGap", .num 5)] ∧
    handleShorthandGap "gap" (.arr [.num 4, .num 5, .num 6]) =
      .error (.invalidLength "gap" [1, 2] 3) ∧
    handleShorthandGap "gap" (.arr [.str "auto"]) =
      .error (.invalidShorthandValue "gap" "object") ∧
    handleShorthandGap "gap" (.str "5") =
      .error (.invalidShorthandValue "gap" "string") :=
  gap_expansion "gap" 3 (.num 4) (.num 5) [.num 4, .num 5, .num 6] [.str "auto"]
    (.str "5") (by decide) (by decide) (by decide) (by decide) (by decide)
    (by decide) (by decide)

/-- Claim C6 counterexample: a five-element inset sequence of dimension
values fails, but with the generic invalid-inset-value error that
carries only the received array, not a length error carrying an
expected length set and the actual length. -/
theorem inset_length_counterexample :
    handleShorthandInset "inset" (.arr [.num 1, .num 2, .num 3, .num 4, .num 5]) =
      .error (.invalidInsetValue [.num 1, .num 2, .num 3, .num 4, .num 5]) ∧
    StyleError.isLengthError
      (.invalidInsetValue [.num 1, .num 2, .num 3, .num 4, .num 5]) = false :=
  ⟨rfl, rfl⟩

/-- Claim C6 as amended: for every sequence of dimension values whose
length is 0 or at least 5, `handleShorthandInset` fails with the
invalid-inset-value error carrying the received array (the data behind
the JSON in the thrown message), not with a length error. -/
theorem inset_invalid_length (key : String) (xs : List JSValue)
    (hall : xs.all isDimensionValue = true)
    (hlen : xs.length = 0 ∨ 5 ≤ xs.length) :
    handleShorthandInset key (.arr xs) = .error (.invalidInsetValue xs) := by
  rcases xs with _ | ⟨a, _ | ⟨b, _ | ⟨c, _ | ⟨d, _ | ⟨e, t⟩⟩⟩⟩⟩
  · simp [handleShorthandInset, isDimensionValue_arr]
  · simp at hlen
  · simp at hlen
  · simp at hlen
  · simp at hlen
  · simp only [List.all_cons, Bool.and_eq_true] at hall
    simp [handleShorthandInset, isDimensionValue_arr,
      hall.1, hall.2.1, hall.2.2.1, hall.2.2.2.1, hall.2.2.2.2]

/-- Claim C6 amended witness: the empty sequence and a five-element
sequence both produce the invalid-inset-value error. -/
theorem inset_invalid_length_witness :
    handleShorthandInset "inset" (.arr [.num 1, .num 2, .num 3, .num 4, .num 5]) =
      .error (.invalidInsetValue [.num 1, .num 2, .num 3, .num 4, .num 5]) :=
  inset_invalid_length "inset" [.num 1, .num 2, .num 3, .num 4, .num 5]
    (by decide) (by decide)

/-- Claim C7: a spacing sequence of dimension values whose length is
outside 1 to 4 fails with the length error carrying the key, the
expected lengths 1, 2, 3, 4 and the actual length, and no property map
is produced. -/
theorem spacing_invalid_length (key : String) (xs : List JSValue)
    (hall : xs.all isDimensionValue = true)
    (hlen : xs.length = 0 ∨ 5 ≤ xs.length) :
    handleShorthandSpacing key (.arr xs) =
      .error (.invalidLength key [1, 2, 3, 4] xs.length) ∧
    ∀ pm : PropMap, handleShorthandSpacing key (.arr xs) ≠ .ok pm := by
  have main : handleShorthandSpacing key (.arr xs) =
      .error (.invalidLength key [1, 2, 3, 4] xs.length) := by
    rcases xs with _ | ⟨a, _ | ⟨b, _ | ⟨c, _ | ⟨d, _ | ⟨e, t⟩⟩⟩⟩⟩
    · simp [handleShorthandSpacing, isDimensionValue_arr]
    · simp at hlen
    · simp at hlen
    · simp at hlen
    · simp at hlen
    · simp only [List.all_cons, Bool.and_eq_true] at hall
      simp [handleShorthandSpacing, isDimensionValue_arr,
        hall.1, hall.2.1, hall.2.2.1, hall.2.2.2.1, hall.2.2.2.2]
  exact ⟨main, fun pm h => by rw [main] at h; exact Except.noConfusion h⟩

/-- Claim C7 witness: margin with a five-element sequence fails with the
length error naming the expected lengths and the actual length 5. -/
theorem spacing_invalid_length_witness :
    handleShorthandSpacing "margin" (.arr [.num 1, .num 2, .num 3, .num 4, .num 5]) =
      .error (.invalidLength "margin" [1, 2, 3, 4] 5) ∧
    ∀ pm : PropMap,
      handleShorthandSpacing "margin" (.arr [.num 1, .num 2, .num 3, .num 4, .num 5]) ≠
        .ok pm :=
  spacing_invalid_length "margin" [.num 1, .num 2, .num 3, .num 4, .num 5]
    (by decide) (by decide)

/-! ### Plain assignment and the ignored-key copy -/

/-- Claim C9: the ignored-key copy `assignIgnoredKeyStyle` (used for
compound properties such as shadowOffset) and the plain assignment
`assignFlatStyle` are the same operation: both create the parent bucket
if absent and write the property into it, so copying a compound
property verbatim is exactly plain assignment. -/
theorem assign_ignored_eq_flat (ns : StyleMap) (parentKey key : String) (v : JSValue) :
    assignIgnoredKeyStyle ns parentKey key v = assignFlatStyle ns parentKey key v ∧
    lookup2 (assignFlatStyle ns parentKey key v) parentKey key = some v ∧
    (alGet (assignFlatStyle ns parentKey key v) parentKey).isSome = true := by
  refine ⟨rfl, ?_, ?_⟩
  · unfold assignFlatStyle lookup2
    rw [alGet_alSet_self]
    exact alGet_alSet_self _ _ _
  · unfold assignFlatStyle
    rw [alGet_alSet_self]
    rfl

/-! ### The shared-style merger -/

theorem applySharedStyles_cons (ns : StyleMap) (s : String) (props : PropMap)
    (rest : StyleMap) :
    applySharedStyles ns ((s, props) :: rest) =
      applySharedStyles
        (alSet (if (alGet ns s).isSome then ns else alSet ns s []) s
          (objAssign
            ((alGet (if (alGet ns s).isSome then ns else alSet ns s []) s).getD [])
            props))
        rest := rfl

theorem sharedStep_alGet_self (ns : StyleMap) (s : String) (props : PropMap) :
    alGet
      (alSet (if (alGet ns s).isSome then ns else alSet ns s []) s
        (objAssign
          ((alGet (if (alGet ns s).isSome then ns else alSet ns s []) s).getD [])
          props)) s
    = some (objAssign ((alGet ns s).getD []) props) := by
  cases h : alGet ns s with
  | none => simp [h, alGet_alSet_self]
  | some b => simp [h, alGet_alSet_self]

theorem sharedStep_alGet_ne (ns : StyleMap) (s : String) (props : PropMap)
    (k : String) (h : k ≠ s) :
    alGet
      (alSet (if (alGet ns s).isSome then ns else alSet ns s []) s
        (objAssign
          ((alGet (if (alGet ns s).isSome then ns else alSet ns s []) s).getD [])
          props)) k
    = alGet ns k := by
  cases hgg : alGet ns s with
  | none => simp [hgg, alGet_alSet_ne _ _ _ _ h]
  | some b => simp [hgg, alGet_alSet_ne _ _ _ _ h]

/-- Full characterization of a bucket after `applySharedStyles`: a
selector named in the shared map gets its old (or fresh) bucket with
the shared properties assigned over it; every other selector keeps its
bucket. -/
theorem applySharedStyles_alGet (shared : StyleMap) (ns : StyleMap) (sel : String)
    (hnd : (shared.map Prod.fst).Nodup) :
    alGet (applySharedStyles ns shared) sel =
      (alGet shared sel).elim (alGet ns sel)
        (fun props => some (objAssign ((alGet ns sel).getD []) props)) := by
  induction shared generalizing ns with
  | nil => rfl
  | cons p rest ih =>
    obtain ⟨s, props⟩ := p
    simp only [List.map_cons, List.nodup_cons] at hnd
    rw [applySharedStyles_cons, ih _ hnd.2]
    by_cases hs : sel = s
    · subst hs
      have hrest : alGet rest sel = none := by
        rw [alGet_eq_none_iff]
        exact hnd.1
      have hhead : alGet ((sel, props) :: rest) sel = some props := by
        simp [alGet]
      rw [hrest, hhead]
      simp only [Option.elim_none, Option.elim_some]
      exact sharedStep_alGet_self ns sel props
    · have hss : ¬ s = sel := fun hcontra => hs hcontra.symm
      have hhead : alGet ((s, props) :: rest) sel = alGet rest sel := by
        simp [alGet, hss]
      rw [hhead]
      cases hr : alGet rest sel with
      | none =>
        simp only [Option.elim_none]
        exact sharedStep_alGet_ne ns s props sel hs
      | some props2 =>
        simp only [Option.elim_some]
        rw [sharedStep_alGet_ne ns s props sel hs]

theorem lookup2_unfold (m : StyleMap) (sel prop : String) :
    lookup2 m sel prop = (alGet m sel).elim none (fun b => alGet b prop) := by
  cases h : alGet m sel <;> simp [lookup2, h]

/-- Claim C8: `applySharedStyles` merges each selector's accumulated
properties into the flat mapping, creating absent buckets and
overwriting on property conflict (the shared map wins, i.e. the later
write in merge order wins); properties the shared map does not name are
preserved; applying the same map twice is idempotent; and applying two
maps with non-overlapping property sets in sequence yields the union of
the two. All maps are JavaScript objects, so their key lists are free
of duplicates. -/
theorem applySharedStyles_merge (ns shared m2 : StyleMap) (sel prop : String)
    (hsh : (shared.map Prod.fst).Nodup)
    (hbk : ∀ b ∈ shared.map Prod.snd, (b.map Prod.fst).Nodup)
    (hm2 : (m2.map Prod.fst).Nodup)
    (hbk2 : ∀ b ∈ m2.map Prod.snd, (b.map Prod.fst).Nodup) :
    ((alGet shared sel).isSome = true →
      (alGet (applySharedStyles ns shared) sel).isSome = true) ∧
    (∀ b v, alGet shared sel = some b → alGet b prop = some v →
      lookup2 (applySharedStyles ns shared) sel prop = some v) ∧
    (∀ b, alGet shared sel = some b → alGet b prop = none →
      lookup2 (applySharedStyles ns shared) sel prop = lookup2 ns sel prop) ∧
    (lookup2 (applySharedStyles (applySharedStyles ns shared) shared) sel prop =
      lookup2 (applySharedStyles ns shared) sel prop) ∧
    ((∀ s p, lookup2 shared s p = none ∨ lookup2 m2 s p = none) →
      ∀ v, (lookup2 shared sel prop = some v ∨ lookup2 m2 sel prop = some v) →
      lookup2 (applySharedStyles (applySharedStyles ns shared) m2) sel prop = some v) := by
  refine ⟨?_, ?_, ?_, ?_, ?_⟩
  · intro h
    rw [applySharedStyles_alGet shared ns sel hsh]
    cases hs : alGet shared sel with
    | none => rw [hs] at h; exact absurd h (by simp)
    | some props => simp
  · intro b v hb hv
    rw [lookup2_unfold, applySharedStyles_alGet shared ns sel hsh, hb]
    simp only [Option.elim_some]
    exact objAssign_alGet_of_some b _ prop v (hbk b (alGet_mem_snd shared sel b hb)) hv
  · intro b hb hv
    rw [lookup2_unfold, applySharedStyles_alGet shared ns sel hsh, hb]
    simp only [Option.elim_some]
    rw [objAssign_alGet_of_none b _ prop hv, lookup2_unfold]
    cases hn : alGet ns sel <;> simp [alGet]
  · rw [lookup2_unfold, lookup2_unfold,
      applySharedStyles_alGet shared (applySharedStyles ns shared) sel hsh,
      applySharedStyles_alGet shared ns sel hsh]
    cases hs : alGet shared sel with
    | none => simp
    | some props =>
      simp only [Option.elim_some, Option.getD_some]
      have hpnd : (props.map Prod.fst).Nodup :=
        hbk props (alGet_mem_snd shared sel props hs)
      cases hp : alGet props prop with
      | none => rw [objAssign_alGet_of_none props _ prop hp]
      | some v =>
        rw [objAssign_alGet_of_some props _ prop v hpnd hp,
          objAssign_alGet_of_some props _ prop v hpnd hp]
  · intro hdisj v hv
    rcases hv with hv | hv
    · -- the property came from the first map and the second map misses it
      have h1 : lookup2 (applySharedStyles ns shared) sel prop = some v := by
        rw [lookup2_unfold] at hv
        cases hb : alGet shared sel with
        | none => rw [hb] at hv; simp at hv
        | some b =>
          rw [hb] at hv
          simp only [Option.elim_some] at hv
          rw [lookup2_unfold, applySharedStyles_alGet shared ns sel hsh, hb]
          simp only [Option.elim_some]
          exact objAssign_alGet_of_some b _ prop v
            (hbk b (alGet_mem_snd shared sel b hb)) hv
      have h2 : lookup2 m2 sel prop = none := by
        rcases hdisj sel prop with h | h
        · rw [h] at hv; exact absurd hv (by simp)
        · exact h
      rw [lookup2_unfold, applySharedStyles_alGet m2 (applySharedStyles ns shared) sel hm2]
      cases hb2 : alGet m2 sel with
      | none =>
        simp only [Option.elim_none]
        rw [lookup2_unfold] at h1
        exact h1
      | some b2 =>
        have hb2p : alGet b2 prop = none := by
          rw [lookup2_unfold, hb2] at h2
          simpa using h2
        simp only [Option.elim_some]
        rw [objAssign_alGet_of_none b2 _ prop hb2p]
        rw [lookup2_unfold] at h1
        cases ha : alGet (applySharedStyles ns shared) sel with
        | none => rw [ha] at h1; simp at h1
        | some bb =>
          rw [ha] at h1
          simpa using h1
    · -- the property came from the second map, which wins anyway
      rw [lookup2_unfold] at hv
      cases hb2 : alGet m2 sel with
      | none => rw [hb2] at hv; simp at hv
      | some b2 =>
        rw [hb2] at hv
        simp only [Option.elim_some] at hv
        rw [lookup2_unfold,
          applySharedStyles_alGet m2 (applySharedStyles ns shared) sel hm2, hb2]
        simp only [Option.elim_some]
        exact objAssign_alGet_of_some b2 _ prop v
          (hbk2 b2 (alGet_mem_snd m2 sel b2 hb2)) hv

/-- Claim C8 witness: merging a one-selector shared map into an empty
flat mapping makes the shared property visible. -/
theorem applySharedStyles_merge_witness :
    lookup2 (applySharedStyles [] [("card", [("color", .str "red")])]) "card" "color" =
      some (.str "red") :=
  (applySharedStyles_merge [] [("card", [("color", .str "red")])]
      [("card", [("width", .num 5)])] "card" "color"
      (by decide)
      (by intro b hb; rw [List.mem_map] at hb; rcases hb with ⟨x, hx, he⟩;
          rw [List.mem_singleton] at hx; subst hx; rw [Eq.symm he]; decide)
      (by decide)
      (by intro b hb; rw [List.mem_map] at hb; rcases hb with ⟨x, hx, he⟩;
          rw [List.mem_singleton] at hx; subst hx; rw [Eq.symm he]; decide)).2.1
    [("color", .str "red")] (.str "red") rfl rfl

/-! ### Shared-selector scoping and frame conditions -/

theorem alGet_of_mem_nodup {α : Type} (m : List (String × α)) (k : String) (v : α)
    (hnd : (m.map Prod.fst).Nodup) (h : (k, v) ∈ m) : alGet m k = some v := by
  induction m with
  | nil => simp at h
  | cons p rest ih =>
    simp only [List.map_cons, List.nodup_cons] at hnd
    rcases List.mem_cons.mp h with he | hm
    · rw [← he]
      simp [alGet]
    · have hne : ¬ p.1 = k := by
        intro hq
        exact hnd.1 (hq ▸ List.mem_map.mpr ⟨(k, v), hm, rfl⟩)
      simp only [alGet, beq_iff_eq, hne, if_false]
      exact ih hnd.2 hm

theorem ensureBucket_alGet_self (m : StyleMap) (s : String) :
    alGet (ensureBucket m s) s = some ((alGet m s).getD []) := by
  unfold ensureBucket
  cases h : alGet m s with
  | none => simp [h, alGet_alSet_self]
  | some b => simp [h]

theorem ensureBucket_alGet_ne (m : StyleMap) (s k : String) (h : k ≠ s) :
    alGet (ensureBucket m s) k = alGet m k := by
  unfold ensureBucket
  cases hg : alGet m s with
  | none => simp [alGet_alSet_ne _ _ _ _ h]
  | some b => simp

theorem processProps_no_shorthand (value : PropMap) (bucket : PropMap)
    (h : ∀ pr ∈ value.map Prod.fst, pr ∉ specialShorthandKeys) :
    processProps value bucket = .ok (objAssign bucket value) := by
  induction value generalizing bucket with
  | nil => rfl
  | cons p rest ih =>
    obtain ⟨prop, v⟩ := p
    have hp : prop ∉ specialShorthandKeys := h prop (by simp)
    have hcontains : specialShorthandKeys.contains prop = false := by simp [hp]
    simp only [processProps, hcontains, Bool.false_eq_true, if_false]
    exact ih (alSet bucket prop v) (fun pr hpr => h pr (by simp [hpr]))

theorem applySelector_no_shorthand (parentKey : String) (value : PropMap)
    (m : StyleMap) (sel : String)
    (hnosh : ∀ pr ∈ value.map Prod.fst, pr ∉ specialShorthandKeys) :
    applySelector parentKey value m sel =
      .ok (alSet (ensureBucket m (scopedKeyOf parentKey sel))
        (scopedKeyOf parentKey sel)
        (objAssign ((alGet m (scopedKeyOf parentKey sel)).getD []) value)) := by
  unfold applySelector
  rw [ensureBucket_alGet_self, Option.getD_some,
    processProps_no_shorthand value _ hnosh]

theorem applySelector_frame (parentKey : String) (value : PropMap) (m m2 : StyleMap)
    (sel k : String) (hok : applySelector parentKey value m sel = .ok m2)
    (hk : k ≠ scopedKeyOf parentKey sel) : alGet m2 k = alGet m k := by
  unfold applySelector at hok
  cases hproc : processProps value
      ((alGet (ensureBucket m (scopedKeyOf parentKey sel))
        (scopedKeyOf parentKey sel)).getD []) with
  | error e => rw [hproc] at hok; exact Except.noConfusion hok
  | ok bucket =>
    rw [hproc] at hok
    have hm2 : alSet (ensureBucket m (scopedKeyOf parentKey sel))
        (scopedKeyOf parentKey sel) bucket = m2 := Except.ok.inj hok
    rw [← hm2, alGet_alSet_ne _ _ _ _ hk, ensureBucket_alGet_ne _ _ _ hk]

theorem sharedStylesLoop_frame (parentKey : String) (value : PropMap)
    (sels : List String) (m m2 : StyleMap) (k : String)
    (hok : sharedStylesLoop parentKey value sels m = .ok m2)
    (hk : ∀ sel ∈ sels, k ≠ scopedKeyOf parentKey sel) :
    alGet m2 k = alGet m k := by
  induction sels generalizing m with
  | nil => rw [Except.ok.inj hok]
  | cons sel rest ih =>
    unfold sharedStylesLoop at hok
    cases ha : applySelector parentKey value m sel with
    | error e => rw [ha] at hok; exact Except.noConfusion hok
    | ok mm =>
      rw [ha] at hok
      rw [ih mm hok (fun s hs => hk s (List.mem_cons_of_mem sel hs))]
      exact applySelector_frame parentKey value m mm sel k ha
        (hk sel (List.mem_cons_self sel rest))

theorem sharedStylesLoop_ok (parentKey : String) (value : PropMap)
    (hnosh : ∀ pr ∈ value.map Prod.fst, pr ∉ specialShorthandKeys)
    (sels : List String) (m : StyleMap) :
    ∃ m2, sharedStylesLoop parentKey value sels m = .ok m2 := by
  induction sels generalizing m with
  | nil => exact ⟨m, rfl⟩
  | cons sel rest ih =>
    unfold sharedStylesLoop
    rw [applySelector_no_shorthand parentKey value m sel hnosh]
    exact ih _

theorem sharedStylesLoop_preserves (parentKey : String) (value : PropMap)
    (prop : String) (v : JSValue)
    (hnosh : ∀ pr ∈ value.map Prod.fst, pr ∉ specialShorthandKeys)
    (hvnd : (value.map Prod.fst).Nodup) (hmem : (prop, v) ∈ value)
    (sels : List String) (m m2 : StyleMap) (k : String)
    (hok : sharedStylesLoop parentKey value sels m = .ok m2)
    (hm : lookup2 m k prop = some v) : lookup2 m2 k prop = some v := by
  induction sels generalizing m with
  | nil => rw [← Except.ok.inj hok]; exact hm
  | cons sel rest ih =>
    unfold sharedStylesLoop at hok
    rw [applySelector_no_shorthand parentKey value m sel hnosh] at hok
    refine ih _ hok ?_
    by_cases hk : k = scopedKeyOf parentKey sel
    · subst hk
      rw [lookup2_unfold, alGet_alSet_self]
      simp only [Option.elim_some]
      exact objAssign_alGet_of_some value _ prop v hvnd
        (alGet_of_mem_nodup value prop v hvnd hmem)
    · rw [lookup2_unfold, alGet_alSet_ne _ _ _ _ hk, ensureBucket_alGet_ne _ _ _ hk,
        ← lookup2_unfold]
      exact hm

theorem sharedStylesLoop_establishes (parentKey : String) (value : PropMap)
    (prop : String) (v : JSValue)
    (hnosh : ∀ pr ∈ value.map Prod.fst, pr ∉ specialShorthandKeys)
    (hvnd : (value.map Prod.fst).Nodup) (hmem : (prop, v) ∈ value)
    (sels : List String) (m m2 : StyleMap) (segment : String)
    (hseg : segment ∈ sels)
    (hok : sharedStylesLoop parentKey value sels m = .ok m2) :
    lookup2 m2 (scopedKeyOf parentKey segment) prop = some v := by
  induction sels generalizing m with
  | nil => simp at hseg
  | cons sel rest ih =>
    unfold sharedStylesLoop at hok
    rw [applySelector_no_shorthand parentKey value m sel hnosh] at hok
    rcases List.mem_cons.mp hseg with he | hmm
    · subst he
      refine sharedStylesLoop_preserves parentKey value prop v hnosh hvnd hmem
        rest _ m2 _ hok ?_
      rw [lookup2_unfold, alGet_alSet_self]
      simp only [Option.elim_some]
      exact objAssign_alGet_of_some value _ prop v hvnd
        (alGet_of_mem_nodup value prop v hvnd hmem)
    · exact ih _ hmm hok

/-- Claim C5: `handleSharedStyles` splits its key on commas, trims each
segment, and writes each declared property into the bucket named by the
scoped key, which is the parent key concatenated with the
first-character-capitalized segment when the parent key is non-empty
and the bare segment otherwise (`scopedKeyOf`, built on `capitalize`).
Stated for declarations of plain (non-shorthand) properties; the
witness instantiates the claim's example, where parent key card and
shared key title, subtitle populate the cardTitle and cardSubtitle
buckets. -/
theorem sharedStyles_scoping (key parentKey : String) (value : PropMap)
    (map : StyleMap) (segment prop : String) (v : JSValue)
    (hseg : segment ∈ selectorSegments key)
    (hmem : (prop, v) ∈ value)
    (hnosh : ∀ pr ∈ value.map Prod.fst, pr ∉ specialShorthandKeys)
    (hvnd : (value.map Prod.fst).Nodup) :
    ∃ m, handleSharedStyles key parentKey value map = .ok m ∧
      lookup2 m (scopedKeyOf parentKey segment) prop = some v := by
  obtain ⟨m, hm⟩ :=
    sharedStylesLoop_ok parentKey value hnosh (selectorSegments key) map
  exact ⟨m, hm, sharedStylesLoop_establishes parentKey value prop v hnosh hvnd hmem
    (selectorSegments key) map m segment hseg hm⟩

/-- Claim C5 witness: with parent key card and key title, subtitle,
both the cardTitle and the cardSubtitle buckets receive the declared
color property. -/
theorem sharedStyles_scoping_witness :
    (∃ m, handleSharedStyles "title, subtitle" "card"
        [("color", .str "red")] [] = .ok m ∧
      lookup2 m "cardTitle" "color" = some (.str "red")) ∧
    (∃ m, handleSharedStyles "title, subtitle" "card"
        [("color", .str "red")] [] = .ok m ∧
      lookup2 m "cardSubtitle" "color" = some (.str "red")) :=
  ⟨sharedStyles_scoping "title, subtitle" "card" [("color", .str "red")] []
      "title" "color" (.str "red") (by decide) (List.mem_singleton.mpr rfl)
      (by intro pr hpr
          have hpc : pr = "color" := by simpa using hpr
          subst hpc
          decide)
      (by decide),
    sharedStyles_scoping "title, subtitle" "card" [("color", .str "red")] []
      "subtitle" "color" (.str "red") (by decide) (List.mem_singleton.mpr rfl)
      (by intro pr hpr
          have hpc : pr = "color" := by simpa using hpr
          subst hpc
          decide)
      (by decide)⟩

theorem applySharedStyles_frame (shared ns : StyleMap) (k : String)
    (hk : k ∉ shared.map Prod.fst) :
    alGet (applySharedStyles ns shared) k = alGet ns k := by
  induction shared generalizing ns with
  | nil => rfl
  | cons p rest ih =>
    obtain ⟨s, props⟩ := p
    simp only [List.map_cons, List.mem_cons, not_or] at hk
    rw [applySharedStyles_cons, ih _ hk.2]
    exact sharedStep_alGet_ne ns s props k hk.1

/-- Claim C10: `handleSharedStyles` creates or modifies only the
buckets named by the scoped keys of the comma-split, trimmed segments
of its key, and `applySharedStyles` creates or modifies only the
buckets whose selector occurs in the shared style map; every other
selector's bucket, with all of its properties, is returned unchanged. -/
theorem frame_effects (key parentKey : String) (value : PropMap)
    (map m ns shared : StyleMap) (k k2 : String)
    (hok : handleSharedStyles key parentKey value map = .ok m)
    (hk : ∀ sel ∈ selectorSegments key, k ≠ scopedKeyOf parentKey sel)
    (hk2 : k2 ∉ shared.map Prod.fst) :
    alGet m k = alGet map k ∧
    alGet (applySharedStyles ns shared) k2 = alGet ns k2 :=
  ⟨sharedStylesLoop_frame parentKey value (selectorSegments key) map m k hok hk,
    applySharedStyles_frame shared ns k2 hk2⟩

/-- Claim C10 witness: processing selector a leaves the unrelated
selector z untouched in both operations. -/
theorem frame_effects_witness :
    alGet [("z", [("w", .num 0)]), ("a", [("color", .str "red")])] "z" =
      alGet [("z", [("w", JSValue.num 0)])] "z" ∧
    alGet (applySharedStyles [("z", [("w", .num 0)])] [("a", [("color", .str "red")])]) "z" =
      alGet [("z", [("w", JSValue.num 0)])] "z" :=
  frame_effects "a" "" [("color", .str "red")]
    [("z", [("w", .num 0)])] [("z", [("w", .num 0)]), ("a", [("color", .str "red")])]
    [("z", [("w", .num 0)])] [("a", [("color", .str "red")])] "z" "z"
    rfl (by decide) (by decide)

/-! ### The dimension-value classifier and the percentage pattern -/

theorem span_append (p : Char → Bool) (ds rest : List Char)
    (h1 : ∀ c ∈ ds, p c = true)
    (h2 : ∀ c, rest.head? = some c → p c = false) :
    (ds ++ rest).takeWhile p = ds ∧ (ds ++ rest).dropWhile p = rest := by
  induction ds with
  | nil =>
    simp only [List.nil_append]
    cases rest with
    | nil => simp
    | cons c t =>
      have hc := h2 c rfl
      simp [List.takeWhile_cons, List.dropWhile_cons, hc]
  | cons d ds ih =>
    have hd : p d = true := h1 d (by simp)
    have ihr := ih (fun c hc => h1 c (by simp [hc]))
    simp [List.takeWhile_cons, List.dropWhile_cons, hd, ihr.1, ihr.2]

theorem matchPercentEnd_iff (rest : List Char) :
    matchPercentEnd rest = true ↔ (rest = [] ∨ rest = ['%']) := by
  cases rest with
  | nil => simp [matchPercentEnd]
  | cons c t => simp [matchPercentEnd, List.isEmpty_iff, and_comm]

theorem matchDimTail_iff (rest : List Char) :
    matchDimTail rest = true ↔
      (rest = [] ∨ rest = ['%'] ∨
        ∃ fd pc, rest = '.' :: (fd ++ pc) ∧ fd ≠ [] ∧ (∀ c ∈ fd, c.isDigit = true) ∧
          (pc = [] ∨ pc = ['%'])) := by
  cases rest with
  | nil => simp [matchDimTail]
  | cons c rest2 =>
    simp only [matchDimTail]
    by_cases hpe : (c == '%' && rest2.isEmpty) = true
    · rw [if_pos hpe]
      simp only [Bool.and_eq_true, beq_iff_eq, List.isEmpty_iff] at hpe
      simp [hpe.1, hpe.2]
    · rw [if_neg hpe]
      by_cases hc : c = '.'
      · subst hc
        rw [if_pos (show (('.' : Char) == '.') = true from rfl)]
        constructor
        · intro h
          by_cases hemp : (rest2.takeWhile Char.isDigit).isEmpty = true
          · rw [if_pos hemp] at h
            exact absurd h (by simp)
          · rw [if_neg hemp] at h
            refine Or.inr (Or.inr ⟨rest2.takeWhile Char.isDigit,
              rest2.dropWhile Char.isDigit, ?_, ?_, ?_, ?_⟩)
            · rw [List.takeWhile_append_dropWhile Char.isDigit rest2]
            · intro h0
              rw [h0] at hemp
              exact hemp rfl
            · intro ch hch
              exact List.mem_takeWhile_imp hch
            · exact (matchPercentEnd_iff _).mp h
        · rintro (h0 | h0 | ⟨fd, pc, hre, hfd, hdig, hpc⟩)
          · exact absurd h0 (by simp)
          · exact absurd h0 (by simp)
          · obtain ⟨-, hre2⟩ := List.cons.inj hre
            subst hre2
            have hhead : ∀ ch, pc.head? = some ch → Char.isDigit ch = false := by
              intro ch hch
              rcases hpc with h1 | h1 <;> subst h1
              · simp at hch
              · simp at hch
                subst hch
                decide
            have hspan := span_append Char.isDigit fd pc hdig hhead
            rw [hspan.1, hspan.2]
            have hfdne : fd.isEmpty = false := by
              cases fd with
              | nil => exact absurd rfl hfd
              | cons a t => rfl
            rw [hfdne]
            rw [if_neg (by simp)]
            exact (matchPercentEnd_iff _).mpr hpc
      · rw [if_neg (fun hb => hc (eq_of_beq hb))]
        constructor
        · intro h
          exact absurd h (by simp)
        · rintro (h0 | h0 | ⟨fd, pc, hre, hfd, hdig, hpc⟩)
          · exact absurd h0 (by simp)
          · obtain ⟨hc1, hc2⟩ := List.cons.inj h0
            refine absurd ?_ hpe
            rw [hc1, hc2]
            rfl
          · obtain ⟨hc1, -⟩ := List.cons.inj hre
            exact absurd hc1 hc

theorem matchDimCore_iff (cs : List Char) :
    matchDimCore cs = true ↔
      (∃ ds fr pc : List Char,
        cs = ds ++ fr ++ pc ∧ ds ≠ [] ∧ (∀ c ∈ ds, c.isDigit = true) ∧
        (fr = [] ∨ ∃ fd, fr = '.' :: fd ∧ fd ≠ [] ∧ (∀ c ∈ fd, c.isDigit = true)) ∧
        (pc = [] ∨ pc = ['%'])) := by
  constructor
  · intro h
    unfold matchDimCore at h
    by_cases hemp : (cs.takeWhile Char.isDigit).isEmpty = true
    · rw [if_pos hemp] at h
      exact absurd h (by simp)
    · rw [if_neg hemp] at h
      have hds : ∀ c ∈ cs.takeWhile Char.isDigit, c.isDigit = true :=
        fun c hc => List.mem_takeWhile_imp hc
      have hsplit : cs = cs.takeWhile Char.isDigit ++ cs.dropWhile Char.isDigit :=
        (List.takeWhile_append_dropWhile Char.isDigit cs).symm
      have hdsne : cs.takeWhile Char.isDigit ≠ [] := by
        intro h0
        rw [h0] at hemp
        exact hemp rfl
      rcases (matchDimTail_iff _).mp h with h0 | h0 | ⟨fd, pc, hre, hfd, hdig, hpc⟩
      · rw [h0] at hsplit
        exact ⟨cs.takeWhile Char.isDigit, [], [], by simpa using hsplit, hdsne, hds,
          Or.inl rfl, Or.inl rfl⟩
      · rw [h0] at hsplit
        exact ⟨cs.takeWhile Char.isDigit, [], ['%'], by simpa using hsplit, hdsne, hds,
          Or.inl rfl, Or.inr rfl⟩
      · rw [hre] at hsplit
        refine ⟨cs.takeWhile Char.isDigit, '.' :: fd, pc, ?_, hdsne, hds,
          Or.inr ⟨fd, rfl, hfd, hdig⟩, hpc⟩
        conv_lhs => rw [hsplit]
        simp
  · rintro ⟨ds, fr, pc, hcs, hdsne, hdig, hfr, hpc⟩
    have hhead : ∀ c, (fr ++ pc).head? = some c → Char.isDigit c = false := by
      intro c hc
      rcases hfr with h0 | ⟨fd, h0, hfdne, hfddig⟩ <;> subst h0
      · simp only [List.nil_append] at hc
        rcases hpc with h1 | h1 <;> subst h1
        · simp at hc
        · simp at hc
          subst hc
          decide
      · simp only [List.cons_append, List.head?_cons, Option.some.injEq] at hc
        subst hc
        decide
    have hspan := span_append Char.isDigit ds (fr ++ pc) hdig hhead
    have hcs2 : cs = ds ++ (fr ++ pc) := by
      rw [hcs]
      simp
    unfold matchDimCore
    rw [hcs2, hspan.1, hspan.2]
    have hdsne2 : ds.isEmpty = false := by
      cases ds with
      | nil => exact absurd rfl hdsne
      | cons a t => rfl
    rw [hdsne2]
    rw [if_neg (by simp)]
    refine (matchDimTail_iff _).mpr ?_
    rcases hfr with h0 | ⟨fd, h0, hfdne, hfddig⟩ <;> subst h0
    · rcases hpc with h1 | h1 <;> subst h1
      · exact Or.inl rfl
      · exact Or.inr (Or.inl rfl)
    · exact Or.inr (Or.inr ⟨fd, pc, by simp, hfdne, hfddig, hpc⟩)

/-- The source regular-expression test agrees with the specification's
wording of the pattern. -/
theorem matchesDimPattern_iff (s : String) :
    matchesDimPattern s = true ↔ specDimPattern s :=
  matchDimCore_iff s.data

theorem isDimensionValue_str (s : String) :
    isDimensionValue (.str s) = (s == "auto" || matchesDimPattern s) := by
  simp [isDimensionValue, truthy, getProp, isFunction]

/-- Claim C4: the classifier accepts exactly the numbers, the exact
string auto, the strings matching the digits-fraction-percent pattern
(verified against the spec-level predicate, not the matcher's own
text), null, and the objects whose addListener property is a function;
it rejects everything else. The embedding is a total function, so the
classifier is also side-effect-free and never throws. -/
theorem isDimensionValue_iff (v : JSValue) :
    isDimensionValue v = true ↔
      ((∃ n, v = JSValue.num n) ∨ v = JSValue.str "auto" ∨
        (∃ s, v = JSValue.str s ∧ specDimPattern s) ∨ v = JSValue.null ∨
        (∃ props, v = JSValue.obj props ∧
          alGet props "addListener" = some JSValue.fn)) := by
  cases v with
  | num n => simp [isDimensionValue]
  | str s =>
    rw [isDimensionValue_str]
    simp [matchesDimPattern_iff]
  | bool b => simp [isDimensionValue, truthy, getProp, isFunction]
  | null => simp [isDimensionValue]
  | undefined => simp [isDimensionValue, truthy, getProp, isFunction]
  | fn => simp [isDimensionValue, truthy, getProp, isFunction]
  | arr elems => simp [isDimensionValue, truthy, getProp, isFunction]
  | obj props =>
    cases h : alGet props "addListener" with
    | none => simp [isDimensionValue, truthy, getProp, isFunction, h]
    | some w => cases w <;> simp [isDimensionValue, truthy, getProp, isFunction, h]

end NativeSass
